import Mathlib

/-!
Verification of the folder-size cache and the S3 gateway operations of this
repository (src/MinIO.py and src/main.py), as a shallow embedding.

Keys are lists of characters.  The object store is a finite list of entries
served through delimiter listing, exactly as `list_objects_v2` with
`Delimiter='/'` groups them.  The in-memory cache dictionary is a function
from keys to optional sizes, with the single `time` stamp held next to the
size entries (their key spaces never collide, since every size key ends in
a slash).  General recursion over prefixes is embedded with an explicit
fuel parameter; the fuel is proved irrelevant once it is large enough.
-/

/-- Keys and folder paths of the object store, as character lists. -/
abbrev Key := List Char

/-- Python `s.replace(pat, "")` on character lists: left-to-right,
non-overlapping removal of every occurrence of `pat`, with an explicit
fuel parameter (an empty `pat` removes nothing, as in Python). -/
def removeAllF : Nat → List Char → List Char → List Char
  | 0, _, l => l
  | _ + 1, _, [] => []
  | n + 1, pat, c :: t =>
      if pat ≠ [] ∧ pat.isPrefixOf (c :: t) then removeAllF n pat ((c :: t).drop pat.length)
      else c :: removeAllF n pat t

/-- `s.replace(pat, '')` from the source, with always-sufficient fuel. -/
def removeAll (pat l : List Char) : List Char := removeAllF l.length pat l

/-- One object entry as the store serves it: full key, byte size and the
last-modified stamp. -/
structure Obj where
  key : Key
  size : Nat
  lastModified : String
  deriving DecidableEq

/-- The object store: a finite collection of objects, served through
`list_objects_v2`-style delimiter listing. -/
abbrev Store := List Obj

/-- The part of `k` after the listing node `p` (Python `k[len(p):]`). -/
def restOf (p k : Key) : Key := k.drop p.length

/-- The common sub-folder entry that key `k` rolls up to when listing under
`p` with delimiter '/': `p` followed by the next path segment and '/'. -/
def cpOf (p k : Key) : Key := p ++ (restOf p k).takeWhile (fun c => c != '/') ++ ['/']

/-- Whether key `k` is grouped into a `CommonPrefixes` entry when listing
under `p` with delimiter '/'. -/
def rolled (p k : Key) : Bool := p.isPrefixOf k && (restOf p k).contains '/'

/-- The `CommonPrefixes` part of `list_objects_v2(Prefix=p, Delimiter='/')`:
the distinct next-level folder entries of the keys under `p`. -/
def commonPrefixes (store : Store) (p : Key) : List Key :=
  ((store.filter fun o => rolled p o.key).map fun o => cpOf p o.key).dedup

/-- Whether key `k` is returned in `Contents` when listing under `p` with
delimiter '/'. -/
def isDirectFile (p k : Key) : Bool := p.isPrefixOf k && !(restOf p k).contains '/'

/-- The `Contents` part of `list_objects_v2(Prefix=p, Delimiter='/')`. -/
def contents (store : Store) (p : Key) : Store :=
  store.filter fun o => isDirectFile p o.key

/-- The node recursed into for a `CommonPrefixes` entry `f` at node `p`
(MinIO.py lines 73-74): `"{}{}/".format(p, f.replace(p, '')[:-1])`. -/
def childKey (p f : Key) : Key := p ++ (removeAll p f).dropLast ++ ['/']

/-- `MinIO.calculate_folder_size`: one delimiter listing at `p`, recursion
into each listed sub-folder (threading the mutable cache dictionary), the
sum of the immediate file sizes, and finally `cache[p] = total`.  The
fuel parameter embeds the recursion; it is irrelevant once sufficient. -/
def calcFolderSize (store : Store) : Nat → Key → (Key → Option Nat) → Nat × (Key → Option Nat)
  | 0, _, cache => (0, cache)
  | fuel + 1, p, cache =>
      let acc := (commonPrefixes store p).foldl
        (fun acc f =>
          let r := calcFolderSize store fuel (childKey p f) acc.2
          (acc.1 + r.1, r.2)) (0, cache)
      let total := acc.1 + ((contents store p).map (fun o => o.size)).sum
      (total, fun k => if k = p then some total else acc.2 k)

/-- One iteration of the sub-folder loop of `calculate_folder_size`. -/
def calcStep (store : Store) (fuel : Nat) (p : Key)
    (acc : Nat × (Key → Option Nat)) (f : Key) : Nat × (Key → Option Nat) :=
  let r := calcFolderSize store fuel (childKey p f) acc.2
  (acc.1 + r.1, r.2)

/-- The nodes the recursion of `calculate_folder_size` actually visits
(and therefore writes into the cache), mirroring its call structure. -/
def visitedSet (store : Store) : Nat → Key → List Key
  | 0, _ => []
  | fuel + 1, p =>
      p :: (commonPrefixes store p).flatMap fun f => visitedSet store fuel (childKey p f)

/-- The length of the longest key in the store. -/
def maxKeyLen (store : Store) : Nat := store.foldr (fun o m => max o.key.length m) 0

/-- Fuel sufficient for `calcFolderSize` from node `p`: every recursive
call lengthens the node by at least one character, and listings are empty
once the node outgrows every key. -/
abbrev goodFuel (store : Store) (fuel : Nat) (p : Key) : Prop :=
  1 ≤ fuel ∧ maxKeyLen store + 1 ≤ fuel + p.length

/-- The size `calculate_folder_size` computes for node `p` (stated with
canonical sufficient fuel and an empty cache; proved independent of both
below). -/
def folderSize (store : Store) (p : Key) : Nat :=
  (calcFolderSize store (maxKeyLen store + 1) p (fun _ => none)).1

/-- Modelled from the spec: the sum of the sizes of all objects whose key
starts with `p` — the value the spec says `ComputeFolderSize(p)` returns. -/
def sumSizesUnder (store : Store) (p : Key) : Nat :=
  ((store.filter fun o => p.isPrefixOf o.key).map fun o => o.size).sum

/-- The cache dictionary: folder-size entries plus the dictionary's single
`time` stamp, held as a separate field since size keys always end in '/'. -/
structure CacheS where
  entries : Key → Option Nat
  timeVal : Option Int

/-- One iteration of the folder loop of `refresh_cache`:
`cache[folder] = self.calculate_folder_size(folder, cache)` — the call
mutates the dictionary, then its result is assigned to the folder key. -/
def refreshStep (store : Store) (fuel : Nat) (ent : Key → Option Nat) (f : Key) :
    Key → Option Nat :=
  let r := calcFolderSize store fuel f ent
  fun k => if k = f then some r.1 else r.2 k

/-- `MinIO.refresh_cache`: one root listing, `calculate_folder_size` for
each top-level folder entry (mutating the given cache dictionary in place,
then re-assigning `cache[folder] = size`), and finally
`cache['time'] = time()`.  The JSON dump to disk is not modelled. -/
def refresh_cache (store : Store) (fuel : Nat) (now : Int) (c : CacheS) : CacheS :=
  { entries := (commonPrefixes store []).foldl (refreshStep store fuel) c.entries
    timeVal := some now }

/-- The cache keys the refresh traversal writes. -/
def refreshTouched (store : Store) (fuel : Nat) : List Key :=
  (commonPrefixes store []).flatMap fun f => f :: visitedSet store fuel f

/-- The states the persisted cache file can be in at process start. -/
inductive FileState where
  | absent
  | openError
  | badJson
  | goodJson (entries : Key → Option Nat) (timeField : Option Int)

/-- The Python exceptions `load_cache` can let escape. -/
inductive LoadErr where
  | ioError
  | jsonDecodeError
  | keyErrorTime
  deriving DecidableEq

/-- `MinIO.load_cache`: when the file exists it is opened and parsed with
no exception handler (an open failure, a JSON decode failure, or a missing
`time` field raises), the loaded cache is refreshed when
`cache['time'] < time() + 900`, and a fresh cache is built from empty when
no file exists. -/
def load_cache (store : Store) (fuel : Nat) (now : Int) : FileState → Except LoadErr CacheS
  | .absent => .ok (refresh_cache store fuel now ⟨fun _ => none, none⟩)
  | .openError => .error .ioError
  | .badJson => .error .jsonDecodeError
  | .goodJson _ none => .error .keyErrorTime
  | .goodJson e (some t) =>
      if t < now + 900 then .ok (refresh_cache store fuel now ⟨e, some t⟩)
      else .ok ⟨e, some t⟩

/-- The unit suffix table of `human_readable_size`. -/
def units : List String := ["B", "KB", "MB", "GB", "TB", "PB", "EB", "ZB", "YB"]

/-- The running value of the Python variable `bytes` inside
`human_readable_size`: starting from an integer byte count `n` it only
ever gets divided by 1024, so after `k` divisions it is exactly
`n / 1024 ^ k`.  The pair `(n, k)` represents that value exactly
(idealizing the float arithmetic, which is itself exact on the divisions
the claims exercise). -/
abbrev HrsVal := Nat × Nat

/-- The `while bytes >= 1024 and i < len(units) - 1` loop of
`human_readable_size`.  The guard `bytes >= 1024` on the represented value
`b.1 / 1024 ^ b.2` is `1024 * 1024 ^ b.2 ≤ b.1`; dividing by 1024
increments the exponent.  The guard bounds the iteration count by 8, so a
fuel of 9 is never exhausted. -/
def hrsLoop : Nat → HrsVal → Nat → HrsVal × Nat
  | 0, b, i => (b, i)
  | n + 1, b, i =>
      if 1024 * 1024 ^ b.2 ≤ b.1 ∧ i < 8 then hrsLoop n (b.1, b.2 + 1) (i + 1) else (b, i)

/-- Python `f"{x:.2f}"` on the exactly-represented value
`b.1 / 1024 ^ b.2`: round to hundredths and render with exactly two
decimals.  The hundredths count is
`floor (b.1 / 1024 ^ b.2 * 100 + 1 / 2)`, computed exactly over the
integers.  (Exact halves — which no call site of the claims produces —
round up here, while Python's float formatting rounds them to even.) -/
def format2 (b : HrsVal) : String :=
  let cents : Nat := (200 * b.1 + 1024 ^ b.2) / (2 * 1024 ^ b.2)
  Nat.repr (cents / 100) ++ "." ++ (if cents % 100 < 10 then "0" else "") ++ Nat.repr (cents % 100)

/-- `human_readable_size` from MinIO.py (lines 7-22), on the integer byte
counts every call site passes, in exact arithmetic.  The float-conversion
overflow Python raises on astronomically large inputs is modelled
separately by `human_readable_sizeE`; this exact version is the rendering
the program produces whenever no conversion overflows and the divisions
are exact (as at every input the claims exercise below). -/
def human_readable_size (bytes : Nat) : String :=
  if bytes = 0 then "0 B"
  else
    let r := hrsLoop 9 (bytes, 0) 0
    format2 r.1 ++ " " ++ units.getD r.2 ""

/-- The exception `bytes /= 1024.0` raises when the integer cannot be
converted to a float. -/
inductive FloatErr where
  | overflow
  deriving DecidableEq

/-- The smallest nonnegative integer whose conversion to an IEEE-754
double (a Python float, round to nearest, ties to even) overflows:
`2 ^ 1023 * (2 - 2 ^ (-53)) = 2 ^ 1024 - 2 ^ 970`.  CPython raises
`OverflowError: int too large to convert to float` for any int at least
this large. -/
def floatOvfBound : Nat := 2 ^ 1024 - 2 ^ 970

/-- `human_readable_size` with Python's conversion overflow made
explicit: a nonzero byte count of at least 1024 enters the loop, whose
first `bytes /= 1024.0` converts the int to a float and raises
`OverflowError` when `bytes ≥ floatOvfBound` (the `bytes >= 1024` guard
itself compares the int exactly and cannot raise); every later division
is float-by-1024 and only shrinks the value, so no other step can raise.
Below the bound the rendering is the exact `human_readable_size`. -/
def human_readable_sizeE (bytes : Nat) : Except FloatErr String :=
  if bytes = 0 then .ok "0 B"
  else if 1024 ≤ bytes ∧ floatOvfBound ≤ bytes then .error .overflow
  else .ok (human_readable_size bytes)

/-- Store-level failures, carried as their message. -/
abbrev StoreErr := String

/-- `self.cache.get(p, 0)` — the size lookup used when building a listing
response (MinIO.py line 167). -/
def cacheLookup (c : Key → Option Nat) (p : Key) : Nat := (c p).getD 0

/-- One folder record of a listing response. -/
structure FolderOut where
  name : Key
  path : Key
  size : String
  url : Key
  deriving DecidableEq

/-- One file record of a listing response. -/
structure FileOut where
  key : Key
  lastModified : String
  size : String
  path : Key
  deriving DecidableEq

/-- A listing response of `get_bucket_objects`. -/
structure ListResp where
  folders : List FolderOut
  files : List FileOut
  prefixParts : List Key
  bucket : String
  deriving DecidableEq

/-- `MinIO.get_bucket_objects`: the whole body runs under `try`, so a store
failure is returned as `(None, str(e))` and success as the response paired
with `None`.  The outcome of the single `list_objects_v2` call is passed
explicitly. -/
def get_bucket_objects (bucket : String) (cache : Key → Option Nat) (p : Key)
    (outcome : Except StoreErr Store) : Option ListResp × Option String :=
  match outcome with
  | .error e => (none, some e)
  | .ok store =>
      (some {
        folders := (commonPrefixes store p).map fun f =>
          { name := (removeAll p f).dropLast
            path := f
            size := human_readable_size (cacheLookup cache f)
            url := "?prefix=".toList ++ f }
        files := (contents store p).map fun o =>
          { key := removeAll p o.key
            lastModified := o.lastModified
            size := human_readable_size o.size
            path := o.key }
        prefixParts := (List.splitOn '/' p).dropLast
        bucket := bucket }, none)

/-- `MinIO.get_object`: no handler around the store read, so a failing
read propagates; success returns the final path segment and the body. -/
def get_object (path : Key) (outcome : Except StoreErr (List Char)) :
    Except StoreErr (Key × List Char) :=
  match outcome with
  | .error e => .error e
  | .ok body => .ok ((List.splitOn '/' path).getLastD [], body)

/-- The HTTP response of the `/object` route on success. -/
structure HttpResp where
  content : List Char
  contentDisposition : String
  deriving DecidableEq

/-- `get_object_handler` from main.py: calls `get_object` with no handler
of its own, so a store failure escapes the route as well. -/
def get_object_handler (path : Key) (outcome : Except StoreErr (List Char)) :
    Except StoreErr HttpResp :=
  match get_object path outcome with
  | .error e => .error e
  | .ok r => .ok ⟨r.2, "attachment;filename=" ++ String.mk r.1⟩

/-- The fields of a `head_object` response that `get_object_info` reads. -/
structure HeadResp where
  contentLength : Nat
  lastModified : String
  contentType : String
  etag : String
  metadata : Option (List (String × String))
  deriving DecidableEq

/-- The metadata record `get_object_info` builds. -/
structure InfoOut where
  size : String
  lastModified : String
  contentType : String
  etag : String
  metadata : List (String × String)
  deriving DecidableEq

/-- `MinIO.get_object_info`: a `head_object` failure is caught and returned
as `(None, e)`. -/
def get_object_info (outcome : Except StoreErr HeadResp) : Option InfoOut × Option StoreErr :=
  match outcome with
  | .error e => (none, some e)
  | .ok r =>
      (some { size := human_readable_size r.contentLength
              lastModified := r.lastModified
              contentType := r.contentType
              etag := r.etag
              metadata := r.metadata.getD [] }, none)

/-- `MinIO.delete_object`: a store failure is caught and returned as
`(None, message)`; otherwise the HTTP status selects between a success and
a failure message, always paired with `None`. -/
def delete_object (bucket : String) (key : Key) (outcome : Except StoreErr (Option Nat)) :
    Option String × Option String :=
  match outcome with
  | .error e => (none, some ("Could not delete object '" ++ String.mk key ++ "' , " ++ e))
  | .ok code =>
      if code = some 204 then
        (some ("Object '" ++ String.mk key ++ "' deleted successfully from bucket '"
          ++ bucket ++ "'."), none)
      else
        (some ("Failed to delete object '" ++ String.mk key ++ "' from bucket '"
          ++ bucket ++ "'."), none)

/-- The value `put_object` hands back to its caller: normally a
result/error pair, but the non-200 branch returns a bare message dict. -/
inductive PutRet where
  | pair (res : Option String) (err : Option String)
  | bare (msg : String)
  deriving DecidableEq

/-- `MinIO.put_object`: a store failure is caught and returned as
`(None, str(e))`; a non-200 status returns the bare message dict. -/
def put_object (key : Key) (outcome : Except StoreErr Nat) : PutRet :=
  match outcome with
  | .error e => .pair none (some e)
  | .ok code =>
      if code ≠ 200 then .bare ("Failed to add Object '" ++ String.mk key ++ "'.")
      else .pair (some ("Object '" ++ String.mk key ++ "' was added successfully.")) none

/-- A small well-behaved sample store: objects `a/x` (100 bytes) and
`a/b/y` (200 bytes). -/
def sampleStore : Store :=
  [⟨"a/x".toList, 100, "t1"⟩, ⟨"a/b/y".toList, 200, "t2"⟩]

/-- A store whose sub-folder name repeats the listing node: the single
object `a/ba/x` (100 bytes) lives under the folder `a/ba/`. -/
def buggyStore : Store := [⟨"a/ba/x".toList, 100, "t"⟩]

/-- The store of the spec's end-to-end example: `a/x.txt` (100 bytes),
`a/b/y.txt` (200 bytes) and `c.txt` (50 bytes). -/
def specStore : Store :=
  [⟨"a/x.txt".toList, 100, "t1"⟩, ⟨"a/b/y.txt".toList, 200, "t2"⟩, ⟨"c.txt".toList, 50, "t3"⟩]

/-! ### Facts about `removeAll` (Python `str.replace(pat, '')`) -/

/-- Any fuel at least the length of the scanned list gives the same
result, so `removeAll` is the fixed point of the fueled scan. -/
theorem removeAllF_irrel : ∀ (n m : Nat) (pat l : List Char), l.length ≤ n → l.length ≤ m →
    removeAllF n pat l = removeAllF m pat l := by
  intro n
  induction n with
  | zero =>
    intro m pat l hn _
    have hl : l = [] := List.eq_nil_of_length_eq_zero (Nat.le_zero.mp hn)
    subst hl
    cases m <;> rfl
  | succ n ih =>
    intro m pat l hn hm
    cases l with
    | nil => cases m <;> rfl
    | cons c t =>
      cases m with
      | zero => simp at hm
      | succ m =>
        simp only [removeAllF]
        by_cases h : pat ≠ [] ∧ pat.isPrefixOf (c :: t)
        · rw [if_pos h, if_pos h]
          have hp : 0 < pat.length := List.length_pos.mpr h.1
          apply ih
          · rw [List.length_drop]
            simp only [List.length_cons] at hn ⊢
            omega
          · rw [List.length_drop]
            simp only [List.length_cons] at hm ⊢
            omega
        · rw [if_neg h, if_neg h]
          simp only [List.length_cons] at hn hm
          rw [ih m pat t (by omega) (by omega)]

/-- The scan never lengthens the list. -/
theorem removeAllF_length_le : ∀ (n : Nat) (pat l : List Char),
    (removeAllF n pat l).length ≤ l.length := by
  intro n
  induction n with
  | zero => intro pat l; exact le_rfl
  | succ n ih =>
    intro pat l
    cases l with
    | nil => exact le_rfl
    | cons c t =>
      simp only [removeAllF]
      by_cases h : pat ≠ [] ∧ pat.isPrefixOf (c :: t)
      · rw [if_pos h]
        calc (removeAllF n pat ((c :: t).drop pat.length)).length
            ≤ ((c :: t).drop pat.length).length := ih _ _
          _ ≤ (c :: t).length := by rw [List.length_drop]; omega
      · rw [if_neg h]
        simp only [List.length_cons]
        exact Nat.succ_le_succ (ih _ _)

/-- With enough fuel, a nonempty pattern occurring somewhere in the list is
removed, so the scan strictly shortens the list. -/
theorem removeAllF_length_lt : ∀ (n : Nat) (pat l : List Char), l.length ≤ n → pat ≠ [] →
    pat <:+: l → (removeAllF n pat l).length < l.length := by
  intro n
  induction n with
  | zero =>
    intro pat l hn hp hinf
    have hl : l = [] := List.eq_nil_of_length_eq_zero (Nat.le_zero.mp hn)
    subst hl
    exact absurd (List.infix_nil.mp hinf) hp
  | succ n ih =>
    intro pat l hn hp hinf
    cases l with
    | nil => exact absurd (List.infix_nil.mp hinf) hp
    | cons c t =>
      simp only [removeAllF]
      by_cases h : pat ≠ [] ∧ pat.isPrefixOf (c :: t)
      · rw [if_pos h]
        have h1 := removeAllF_length_le n pat ((c :: t).drop pat.length)
        have hplen : 0 < pat.length := List.length_pos.mpr hp
        rw [List.length_drop] at h1
        simp only [List.length_cons] at h1 ⊢
        omega
      · rw [if_neg h]
        have hnp : ¬ pat.isPrefixOf (c :: t) = true := fun hpre => h ⟨hp, hpre⟩
        obtain ⟨s, u, hsu⟩ := hinf
        cases s with
        | nil =>
          exact absurd (List.isPrefixOf_iff_prefix.mpr ⟨u, by simpa using hsu⟩) hnp
        | cons d s' =>
          have hct : d = c ∧ s' ++ pat ++ u = t := by
            simpa using hsu
          have ht : pat <:+: t := ⟨s', u, hct.2⟩
          simp only [List.length_cons] at hn ⊢
          have := ih pat t (by omega) hp ht
          omega

/-- Scanning a list that starts with the (nonempty) pattern removes that
leading occurrence and scans the remainder. -/
theorem removeAll_append_self (pat t : List Char) (hp : pat ≠ []) :
    removeAll pat (pat ++ t) = removeAll pat t := by
  cases pat with
  | nil => exact absurd rfl hp
  | cons c p' =>
    show removeAllF ((c :: p') ++ t).length (c :: p') ((c :: p') ++ t) = _
    have hpre : (c :: p').isPrefixOf ((c :: p') ++ t) = true :=
      List.isPrefixOf_iff_prefix.mpr (List.prefix_append _ _)
    simp only [List.cons_append, List.length_cons, removeAllF]
    rw [if_pos ⟨hp, hpre⟩]
    simp only [List.drop_succ_cons]
    rw [show List.drop p'.length (p'.append t) = t from List.drop_left p' t]
    exact removeAllF_irrel _ _ _ _
      (le_trans (Nat.le_add_left t.length p'.length) (le_of_eq (List.length_append p' t).symm))
      le_rfl

/-- When the (nonempty) pattern occurs again inside the remainder after the
leading occurrence, removing all occurrences gives a strictly shorter
result than stripping only the leading occurrence. -/
theorem removeAll_ne_drop (p k : Key) (hp : p ≠ []) (hpre : p <+: k)
    (hinf : p <:+: k.drop p.length) : removeAll p k ≠ k.drop p.length := by
  obtain ⟨t, rfl⟩ := hpre
  rw [List.drop_left] at hinf ⊢
  rw [removeAll_append_self p t hp]
  intro heq
  have hlt := removeAllF_length_lt t.length p t le_rfl hp hinf
  rw [show removeAllF t.length p t = removeAll p t from rfl, heq] at hlt
  exact lt_irrefl _ hlt

/-! ### Facts about `calcFolderSize` -/

/-- Unfolding of the size component of one `calculate_folder_size` call. -/
theorem calc_fst (store : Store) (fuel : Nat) (p : Key) (c : Key → Option Nat) :
    (calcFolderSize store (fuel + 1) p c).1 =
      ((commonPrefixes store p).foldl (calcStep store fuel p) (0, c)).1
        + ((contents store p).map (fun o => o.size)).sum := rfl

/-- Unfolding of the cache component of one `calculate_folder_size` call. -/
theorem calc_snd (store : Store) (fuel : Nat) (p : Key) (c : Key → Option Nat) (q : Key) :
    (calcFolderSize store (fuel + 1) p c).2 q =
      if q = p then some ((calcFolderSize store (fuel + 1) p c).1)
      else ((commonPrefixes store p).foldl (calcStep store fuel p) (0, c)).2 q := rfl

/-- The size accumulated by the sub-folder loop is the sum of the
individual sub-folder sizes (given that these do not depend on the
threaded cache). -/
theorem foldl_calcStep_fst (store : Store) (fuel : Nat) (p : Key)
    (hc : ∀ (f : Key) (c₁ c₂ : Key → Option Nat),
      (calcFolderSize store fuel (childKey p f) c₁).1
        = (calcFolderSize store fuel (childKey p f) c₂).1) :
    ∀ (l : List Key) (n : Nat) (c : Key → Option Nat),
      (l.foldl (calcStep store fuel p) (n, c)).1
        = n + (l.map fun f => (calcFolderSize store fuel (childKey p f) (fun _ => none)).1).sum := by
  intro l
  induction l with
  | nil => intro n c; simp
  | cons f l ih =>
    intro n c
    simp only [List.foldl_cons, List.map_cons, List.sum_cons]
    rw [show calcStep store fuel p (n, c) f
        = (n + (calcFolderSize store fuel (childKey p f) c).1,
           (calcFolderSize store fuel (childKey p f) c).2) from rfl]
    rw [ih, hc f c (fun _ => none)]
    omega

/-- The size `calculate_folder_size` returns does not depend on the cache
dictionary passed in: the cache is only written, never read. -/
theorem calc_fst_cache_irrel (store : Store) :
    ∀ (fuel : Nat) (p : Key) (c c' : Key → Option Nat),
      (calcFolderSize store fuel p c).1 = (calcFolderSize store fuel p c').1 := by
  intro fuel
  induction fuel with
  | zero => intro p c c'; rfl
  | succ fuel ih =>
    intro p c c'
    rw [calc_fst, calc_fst,
        foldl_calcStep_fst store fuel p (fun f c₁ c₂ => ih _ c₁ c₂),
        foldl_calcStep_fst store fuel p (fun f c₁ c₂ => ih _ c₁ c₂)]

/-- Every `CommonPrefixes` entry comes from some rolled-up key. -/
theorem exists_key_of_mem_commonPrefixes {store : Store} {p f : Key}
    (h : f ∈ commonPrefixes store p) :
    ∃ o ∈ store, rolled p o.key = true ∧ f = cpOf p o.key := by
  rw [commonPrefixes, List.mem_dedup] at h
  obtain ⟨o, ho, hf⟩ := List.mem_map.mp h
  exact ⟨o, (List.mem_filter.mp ho).1, (List.mem_filter.mp ho).2, hf.symm⟩

/-- A rolled-up key extends the listing node by at least one character. -/
theorem length_lt_of_rolled {p k : Key} (h : rolled p k = true) : p.length + 1 ≤ k.length := by
  rw [rolled, Bool.and_eq_true] at h
  have h1 : p <+: k := List.isPrefixOf_iff_prefix.mp h.1
  have h2 : '/' ∈ restOf p k := List.elem_iff.mp h.2
  have h3 : restOf p k ≠ [] := List.ne_nil_of_mem h2
  have h4 : (restOf p k).length = k.length - p.length := List.length_drop _ _
  have h5 := h1.length_le
  have h6 := List.length_pos.mpr h3
  omega

/-- Every key of the store is bounded by `maxKeyLen`. -/
theorem key_length_le_maxKeyLen {store : Store} {o : Obj} (h : o ∈ store) :
    o.key.length ≤ maxKeyLen store := by
  induction store with
  | nil => cases h
  | cons a l ih =>
    rcases List.mem_cons.mp h with rfl | h'
    · exact Nat.le_max_left _ _
    · exact le_trans (ih h') (Nat.le_max_right _ _)

/-- A recursive call's node is at least one character longer. -/
theorem childKey_length (p f : Key) : p.length + 1 ≤ (childKey p f).length := by
  simp only [childKey, List.length_append, List.length_cons]
  omega

/-- Sufficient fuel propagates to every recursive call. -/
theorem goodFuel_child {store : Store} {fuel : Nat} {p f : Key}
    (hf : f ∈ commonPrefixes store p) (hg : goodFuel store (fuel + 1) p) :
    goodFuel store fuel (childKey p f) := by
  obtain ⟨o, ho, hr, -⟩ := exists_key_of_mem_commonPrefixes hf
  have h1 := length_lt_of_rolled hr
  have h2 := key_length_le_maxKeyLen ho
  have h3 := childKey_length p f
  have h4 := hg.2
  exact ⟨by omega, by omega⟩

/-- With sufficient fuel, the size returned does not depend on the exact
amount of fuel either. -/
theorem calc_fst_fuel_irrel (store : Store) :
    ∀ (fuel fuel' : Nat) (p : Key) (c c' : Key → Option Nat),
      goodFuel store fuel p → goodFuel store fuel' p →
      (calcFolderSize store fuel p c).1 = (calcFolderSize store fuel' p c').1 := by
  intro fuel
  induction fuel with
  | zero => intro fuel' p c c' hg _; exact absurd hg.1 (by omega)
  | succ fuel ih =>
    intro fuel' p c c' hg hg'
    cases fuel' with
    | zero => exact absurd hg'.1 (by omega)
    | succ fuel' =>
      rw [calc_fst, calc_fst,
          foldl_calcStep_fst store fuel p (fun f c₁ c₂ => calc_fst_cache_irrel store fuel _ c₁ c₂),
          foldl_calcStep_fst store fuel' p
            (fun f c₁ c₂ => calc_fst_cache_irrel store fuel' _ c₁ c₂)]
      have hmap : ∀ f ∈ commonPrefixes store p,
          (calcFolderSize store fuel (childKey p f) (fun _ => none)).1
            = (calcFolderSize store fuel' (childKey p f) (fun _ => none)).1 :=
        fun f hf => ih fuel' (childKey p f) _ _ (goodFuel_child hf hg) (goodFuel_child hf hg')
      rw [List.map_congr_left hmap]

/-- With sufficient fuel, the size returned is the canonical
`folderSize`. -/
theorem calc_fst_eq_folderSize {store : Store} {fuel : Nat} {p : Key}
    (hg : goodFuel store fuel p) (c : Key → Option Nat) :
    (calcFolderSize store fuel p c).1 = folderSize store p :=
  calc_fst_fuel_irrel store fuel (maxKeyLen store + 1) p c _ hg ⟨by omega, by omega⟩

/-- Visited nodes are never shorter than the starting node. -/
theorem length_le_of_mem_visitedSet (store : Store) :
    ∀ (fuel : Nat) (p q : Key), q ∈ visitedSet store fuel p → p.length ≤ q.length := by
  intro fuel
  induction fuel with
  | zero => intro p q h; cases h
  | succ fuel ih =>
    intro p q h
    rcases List.mem_cons.mp h with rfl | h'
    · exact le_rfl
    · obtain ⟨f, hf, hq⟩ := List.mem_flatMap.mp h'
      have h1 := ih (childKey p f) q hq
      have h2 := childKey_length p f
      omega

/-- The sub-folder loop leaves cache keys untouched that none of its
recursive calls writes. -/
theorem foldl_calcStep_snd_frame (store : Store) (fuel : Nat) (p : Key) (q : Key) :
    ∀ (l : List Key),
      (∀ f ∈ l, ∀ c' : Key → Option Nat,
        (calcFolderSize store fuel (childKey p f) c').2 q = c' q) →
      ∀ (n : Nat) (c : Key → Option Nat),
        (l.foldl (calcStep store fuel p) (n, c)).2 q = c q := by
  intro l
  induction l with
  | nil => intro _ n c; rfl
  | cons f l ih =>
    intro h n c
    simp only [List.foldl_cons]
    rw [show calcStep store fuel p (n, c) f
        = (n + (calcFolderSize store fuel (childKey p f) c).1,
           (calcFolderSize store fuel (childKey p f) c).2) from rfl]
    rw [ih (fun f' hf' => h f' (List.mem_cons_of_mem _ hf'))]
    exact h f (List.mem_cons_self _ _) c

/-- `calculate_folder_size` writes exactly the visited nodes: any other
cache key keeps its prior value. -/
theorem calc_snd_frame (store : Store) :
    ∀ (fuel : Nat) (p : Key) (c : Key → Option Nat) (q : Key),
      q ∉ visitedSet store fuel p → (calcFolderSize store fuel p c).2 q = c q := by
  intro fuel
  induction fuel with
  | zero => intro p c q _; rfl
  | succ fuel ih =>
    intro p c q hq
    have hq1 : q ≠ p := fun h => hq (h ▸ List.mem_cons_self _ _)
    have hq2 : q ∉ (commonPrefixes store p).flatMap
        fun f => visitedSet store fuel (childKey p f) :=
      fun h => hq (List.mem_cons_of_mem _ h)
    rw [calc_snd, if_neg hq1]
    apply foldl_calcStep_snd_frame
    intro f hf c'
    apply ih
    intro hmem
    exact hq2 (List.mem_flatMap.mpr ⟨f, hf, hmem⟩)

/-- The sub-folder loop maps every node visited by one of its recursive
calls to that node's canonical size. -/
theorem foldl_calcStep_snd_value (store : Store) (fuel : Nat) (p : Key) (q : Key) :
    ∀ (l : List Key),
      (∀ f ∈ l, ∀ c' : Key → Option Nat, q ∈ visitedSet store fuel (childKey p f) →
        (calcFolderSize store fuel (childKey p f) c').2 q = some (folderSize store q)) →
      (∀ f ∈ l, ∀ c' : Key → Option Nat, q ∉ visitedSet store fuel (childKey p f) →
        (calcFolderSize store fuel (childKey p f) c').2 q = c' q) →
      q ∈ l.flatMap (fun f => visitedSet store fuel (childKey p f)) →
      ∀ (n : Nat) (c : Key → Option Nat),
        (l.foldl (calcStep store fuel p) (n, c)).2 q = some (folderSize store q) := by
  intro l
  induction l with
  | nil => intro _ _ h; cases h
  | cons f l ih =>
    intro hval hfr hq n c
    simp only [List.foldl_cons]
    rw [show calcStep store fuel p (n, c) f
        = (n + (calcFolderSize store fuel (childKey p f) c).1,
           (calcFolderSize store fuel (childKey p f) c).2) from rfl]
    by_cases hmem : q ∈ l.flatMap fun f => visitedSet store fuel (childKey p f)
    · exact ih (fun f' hf' => hval f' (List.mem_cons_of_mem _ hf'))
        (fun f' hf' => hfr f' (List.mem_cons_of_mem _ hf')) hmem _ _
    · have hqf : q ∈ visitedSet store fuel (childKey p f) := by
        obtain ⟨f', hf', hq'⟩ := List.mem_flatMap.mp hq
        rcases List.mem_cons.mp hf' with rfl | hf'
        · exact hq'
        · exact absurd (List.mem_flatMap.mpr ⟨f', hf', hq'⟩) hmem
      rw [foldl_calcStep_snd_frame store fuel p q l
        (fun f' hf' c' => hfr f' (List.mem_cons_of_mem _ hf') c'
          (fun hc => hmem (List.mem_flatMap.mpr ⟨f', hf', hc⟩)))]
      exact hval f (List.mem_cons_self _ _) c hqf

/-- With sufficient fuel, `calculate_folder_size` maps every node it
visits to that node's canonical size. -/
theorem calc_snd_visited (store : Store) :
    ∀ (fuel : Nat) (p : Key) (c : Key → Option Nat),
      goodFuel store fuel p → ∀ q ∈ visitedSet store fuel p,
      (calcFolderSize store fuel p c).2 q = some (folderSize store q) := by
  intro fuel
  induction fuel with
  | zero => intro p c hg; exact absurd hg.1 (by omega)
  | succ fuel ih =>
    intro p c hg q hq
    rw [calc_snd]
    rcases List.mem_cons.mp hq with rfl | hq2
    · rw [if_pos rfl]
      exact congrArg some (calc_fst_eq_folderSize hg c)
    · have hne : q ≠ p := by
        obtain ⟨f, hf, hq'⟩ := List.mem_flatMap.mp hq2
        have h1 := length_le_of_mem_visitedSet store fuel (childKey p f) q hq'
        have h2 := childKey_length p f
        intro h
        subst h
        omega
      rw [if_neg hne]
      apply foldl_calcStep_snd_value
      · intro f hf c' hqv
        exact ih (childKey p f) c' (goodFuel_child hf hg) q hqv
      · intro f hf c' hqn
        exact calc_snd_frame store fuel (childKey p f) c' q hqn
      · exact hq2

/-! ### Facts about `refresh_cache` -/

/-- The refresh loop leaves untouched cache keys intact. -/
theorem foldl_refreshStep_frame (store : Store) (fuel : Nat) (q : Key) :
    ∀ (l : List Key), (∀ f ∈ l, q ≠ f ∧ q ∉ visitedSet store fuel f) →
      ∀ (ent : Key → Option Nat), (l.foldl (refreshStep store fuel) ent) q = ent q := by
  intro l
  induction l with
  | nil => intro _ ent; rfl
  | cons f l ih =>
    intro h ent
    simp only [List.foldl_cons]
    rw [ih (fun f' hf' => h f' (List.mem_cons_of_mem _ hf'))]
    show (if q = f then some (calcFolderSize store fuel f ent).1
      else (calcFolderSize store fuel f ent).2 q) = ent q
    rw [if_neg (h f (List.mem_cons_self _ _)).1]
    exact calc_snd_frame store fuel f ent q (h f (List.mem_cons_self _ _)).2

/-- The refresh loop maps every touched cache key to its canonical
size. -/
theorem foldl_refreshStep_value (store : Store) (fuel : Nat) (q : Key) :
    ∀ (l : List Key), (∀ f ∈ l, goodFuel store fuel f) →
      q ∈ l.flatMap (fun f => f :: visitedSet store fuel f) →
      ∀ (ent : Key → Option Nat),
        (l.foldl (refreshStep store fuel) ent) q = some (folderSize store q) := by
  intro l
  induction l with
  | nil => intro _ h; cases h
  | cons f l ih =>
    intro hg hq ent
    simp only [List.foldl_cons]
    by_cases hmem : q ∈ l.flatMap fun f => f :: visitedSet store fuel f
    · exact ih (fun f' hf' => hg f' (List.mem_cons_of_mem _ hf')) hmem _
    · have hqf : q ∈ f :: visitedSet store fuel f := by
        obtain ⟨f', hf', hq'⟩ := List.mem_flatMap.mp hq
        rcases List.mem_cons.mp hf' with rfl | hf'
        · exact hq'
        · exact absurd (List.mem_flatMap.mpr ⟨f', hf', hq'⟩) hmem
      rw [foldl_refreshStep_frame store fuel q l (fun f' hf' =>
        ⟨fun h => hmem (List.mem_flatMap.mpr ⟨f', hf', h ▸ List.mem_cons_self _ _⟩),
         fun h => hmem (List.mem_flatMap.mpr ⟨f', hf', List.mem_cons_of_mem _ h⟩)⟩)]
    -- remaining: the first iteration already wrote `q`
      show (if q = f then some (calcFolderSize store fuel f ent).1
        else (calcFolderSize store fuel f ent).2 q) = some (folderSize store q)
      have hgf := hg f (List.mem_cons_self _ _)
      by_cases hqf' : q = f
      · subst hqf'
        rw [if_pos rfl]
        exact congrArg some (calc_fst_eq_folderSize hgf ent)
      · rw [if_neg hqf']
        rcases List.mem_cons.mp hqf with rfl | hqv
        · exact absurd rfl hqf'
        · exact calc_snd_visited store fuel f ent hgf q hqv

/-! ### Facts about the `human_readable_size` loop -/

/-- The loop guard `i < len(units) - 1` keeps the unit index at or below
the last unit. -/
theorem hrsLoop_snd_le : ∀ (n : Nat) (b : HrsVal) (i : Nat), i ≤ 8 → (hrsLoop n b i).2 ≤ 8 := by
  intro n
  induction n with
  | zero => intro b i hi; exact hi
  | succ n ih =>
    intro b i hi
    rw [hrsLoop]
    by_cases h : 1024 * 1024 ^ b.2 ≤ b.1 ∧ i < 8
    · rw [if_pos h]; exact ih _ _ (by omega)
    · rw [if_neg h]; exact hi

/-- One iteration of the loop while the guard holds. -/
theorem hrsLoop_step (n : Nat) (b : HrsVal) (i : Nat) (h1 : 1024 * 1024 ^ b.2 ≤ b.1)
    (h2 : i < 8) : hrsLoop (n + 1) b i = hrsLoop n (b.1, b.2 + 1) (i + 1) := by
  rw [hrsLoop, if_pos ⟨h1, h2⟩]

/-- The loop stops at unit index 8. -/
theorem hrsLoop_stop (n : Nat) (b : HrsVal) : hrsLoop (n + 1) b 8 = (b, 8) := by
  rw [hrsLoop, if_neg]
  rintro ⟨-, h⟩
  exact lt_irrefl 8 h

/-- On any byte count of at least `1024 ^ 8` the loop runs all eight times
and stops at the last unit, with the value divided by `1024 ^ 8`. -/
theorem hrsLoop_pow (q : Nat) (hq : 1024 ^ 8 ≤ q) : hrsLoop 9 (q, 0) 0 = ((q, 8), 8) := by
  have hstep : ∀ (n k : Nat), k < 8 → hrsLoop (n + 1) (q, k) k = hrsLoop n (q, k + 1) (k + 1) := by
    intro n k hk
    refine hrsLoop_step n (q, k) k ?_ hk
    show 1024 * 1024 ^ k ≤ q
    calc 1024 * 1024 ^ k = 1024 ^ (k + 1) := by rw [pow_succ]; ring
      _ ≤ 1024 ^ 8 := Nat.pow_le_pow_right (by norm_num) (by omega)
      _ ≤ q := hq
  calc hrsLoop 9 (q, 0) 0 = hrsLoop 8 (q, 1) 1 := hstep 8 0 (by norm_num)
    _ = hrsLoop 7 (q, 2) 2 := hstep 7 1 (by norm_num)
    _ = hrsLoop 6 (q, 3) 3 := hstep 6 2 (by norm_num)
    _ = hrsLoop 5 (q, 4) 4 := hstep 5 3 (by norm_num)
    _ = hrsLoop 4 (q, 5) 5 := hstep 4 4 (by norm_num)
    _ = hrsLoop 3 (q, 6) 6 := hstep 3 5 (by norm_num)
    _ = hrsLoop 2 (q, 7) 7 := hstep 2 6 (by norm_num)
    _ = hrsLoop 1 (q, 8) 8 := hstep 1 7 (by norm_num)
    _ = ((q, 8), 8) := hrsLoop_stop 0 _

/-! ### The claims -/

/-- Claim C1 (the code contradicts it — `load_cache` compares
`cache['time'] < time() + 900`, so a persisted snapshot that is only 899
seconds old, fresher than the 15-minute threshold, is nevertheless
refreshed; by the claim it should be used unchanged). -/
theorem claim_C1_fresh_snapshot_refreshed (store : Store) (fuel : Nat)
    (e : Key → Option Nat) (now : Int) :
    load_cache store fuel now (.goodJson e (some (now - 899)))
      = .ok (refresh_cache store fuel now ⟨e, some (now - 899)⟩) := by
  rw [load_cache]
  rw [if_pos (show now - 899 < now + 900 by omega)]

/-- Claim C2 (the code contradicts it — on the store with the single
object `a/ba/x` of 100 bytes, `calculate_folder_size("a/")` returns 0
instead of 100: `replace` also removes the second occurrence of `a/`
inside the sub-folder entry `a/ba/`, so the recursion descends into the
nonexistent node `a//` and never counts the object). -/
theorem claim_C2_replace_bug_undercounts :
    folderSize buggyStore "a/".toList = 0
      ∧ sumSizesUnder buggyStore "a/".toList = 100 :=
  ⟨by decide, by decide⟩

/-- Claim C3, counterexample to the claim as stated: refreshing over an
empty store (whose folder tree is empty) keeps a pre-existing cache entry
`gone/ ↦ 500` alive, because `refresh_cache` mutates the loaded dictionary
instead of replacing it. -/
theorem claim_C3_stale_entry_survives :
    commonPrefixes ([] : Store) [] = []
    ∧ (refresh_cache ([] : Store) 5 1000
        ⟨fun k => if k = "gone/".toList then some 500 else none, none⟩).entries
          "gone/".toList = some 500 :=
  ⟨rfl, by decide⟩

/-- Claim C3 as amended: a refresh writes the timestamp and an entry for
every node touched by the current traversal (each mapped to its computed
size), while every other key of the prior cache survives unchanged — a
merge, not a wholesale replacement. -/
theorem claim_C3_refresh_merges (store : Store) (fuel : Nat) (now : Int) (c : CacheS)
    (q : Key) :
    ((∀ f ∈ commonPrefixes store [], goodFuel store fuel f) →
        q ∈ refreshTouched store fuel →
        (refresh_cache store fuel now c).entries q = some (folderSize store q))
    ∧ (q ∉ refreshTouched store fuel →
        (refresh_cache store fuel now c).entries q = c.entries q)
    ∧ (refresh_cache store fuel now c).timeVal = some now := by
  refine ⟨fun hg hq => ?_, fun hq => ?_, rfl⟩
  · exact foldl_refreshStep_value store fuel q (commonPrefixes store []) hg hq c.entries
  · apply foldl_refreshStep_frame
    intro f hf
    exact ⟨fun h => hq (List.mem_flatMap.mpr ⟨f, hf, by rw [h]; exact List.mem_cons_self _ _⟩),
      fun h => hq (List.mem_flatMap.mpr ⟨f, hf, List.mem_cons_of_mem _ h⟩)⟩

/-- Witness for the amended claim C3 at a concrete store: the refresh
writes `a/b/ ↦ 200`, leaves the untouched key `zz` at its prior value,
and stamps the time. -/
theorem claim_C3_refresh_merges_witness :
    (refresh_cache sampleStore 6 42 ⟨fun _ => none, none⟩).entries "a/b/".toList
        = some (folderSize sampleStore "a/b/".toList)
    ∧ (refresh_cache sampleStore 6 42 ⟨fun _ => none, none⟩).entries "zz".toList = none
    ∧ (refresh_cache sampleStore 6 42 ⟨fun _ => none, none⟩).timeVal = some 42 :=
  ⟨(claim_C3_refresh_merges sampleStore 6 42 ⟨fun _ => none, none⟩ "a/b/".toList).1
      (by decide) (by decide),
   ((claim_C3_refresh_merges sampleStore 6 42 ⟨fun _ => none, none⟩ "zz".toList).2.1
      (by decide)).trans rfl,
   (claim_C3_refresh_merges sampleStore 6 42 ⟨fun _ => none, none⟩ "zz".toList).2.2⟩

/-- Claim C4, counterexample to the claim as stated: a cache file with
malformed JSON makes `load_cache` raise instead of falling back. -/
theorem claim_C4_load_can_fail :
    load_cache ([] : Store) 1 0 .badJson = .error .jsonDecodeError := rfl

/-- Claim C4 as amended: only the absent-file case falls back to an empty
cache followed by a refresh; an unreadable file, malformed JSON, or a
missing `time` field each raise out of `load_cache` uncaught. -/
theorem claim_C4_load_cases (store : Store) (fuel : Nat) (now : Int) :
    load_cache store fuel now .absent
        = .ok (refresh_cache store fuel now ⟨fun _ => none, none⟩)
    ∧ load_cache store fuel now .openError = .error .ioError
    ∧ load_cache store fuel now .badJson = .error .jsonDecodeError
    ∧ ∀ e : Key → Option Nat,
        load_cache store fuel now (.goodJson e none) = .error .keyErrorTime :=
  ⟨rfl, rfl, rfl, fun _ => rfl⟩

/-- Claim C5, counterexample to the claim as stated: a store failure in
`get_object` propagates to the caller uncaught — through the HTTP route
handler as well — instead of being returned as an error/null pair. -/
theorem claim_C5_get_object_propagates :
    get_object "a/b.txt".toList (Except.error "NoSuchKey") = Except.error "NoSuchKey"
    ∧ get_object_handler "a/b.txt".toList (Except.error "NoSuchKey")
        = Except.error "NoSuchKey" :=
  ⟨rfl, rfl⟩

/-- Claim C5 as amended: `get_bucket_objects`, `get_object_info`,
`delete_object` and `put_object` catch store failures at the boundary and
return a null result paired with a structured error, but `get_object`
propagates the failure. -/
theorem claim_C5_error_pairing (e : StoreErr) (bucket : String)
    (cache : Key → Option Nat) (p k₁ k₂ k₃ : Key) :
    get_bucket_objects bucket cache p (.error e) = (none, some e)
    ∧ get_object_info (.error e) = (none, some e)
    ∧ delete_object bucket k₁ (.error e)
        = (none, some ("Could not delete object '" ++ String.mk k₁ ++ "' , " ++ e))
    ∧ put_object k₂ (.error e) = .pair none (some e)
    ∧ get_object k₃ (.error e) = .error e :=
  ⟨rfl, rfl, rfl, rfl, rfl⟩

/-- Claim C6: the size lookup used when building a listing response
returns the cached size when the exact key is present and 0 when it is
absent, never fails, and is exactly what `get_bucket_objects` renders for
each listed folder. -/
theorem claim_C6_lookup_semantics :
    (∀ (c : Key → Option Nat) (p : Key) (v : Nat), c p = some v → cacheLookup c p = v)
    ∧ (∀ (c : Key → Option Nat) (p : Key), c p = none → cacheLookup c p = 0)
    ∧ ∀ (bucket : String) (c : Key → Option Nat) (p : Key) (store : Store),
        ((get_bucket_objects bucket c p (.ok store)).1).map
            (fun r => r.folders.map fun fo => fo.size)
          = some ((commonPrefixes store p).map
              fun f => human_readable_size (cacheLookup c f)) := by
  refine ⟨fun c p v h => ?_, fun c p h => ?_, fun bucket c p store => ?_⟩
  · rw [cacheLookup, h]; rfl
  · rw [cacheLookup, h]; rfl
  · simp [get_bucket_objects, List.map_map]

/-- Witness for claim C6 at a concrete cache: a present key yields its
cached value, an absent key yields 0. -/
theorem claim_C6_lookup_semantics_witness :
    cacheLookup (fun k => if k = "a/".toList then some 300 else none) "a/".toList = 300
    ∧ cacheLookup (fun k => if k = "a/".toList then some 300 else none) "b/".toList = 0 :=
  ⟨claim_C6_lookup_semantics.1 _ _ 300 (by decide),
   claim_C6_lookup_semantics.2.1 _ _ (by decide)⟩

/-- Claim C7, counterexample to its final clause: under the node `a/` of
`buggyStore` the real folder `a/ba/` exists, but the traversal (redirected
to `a//` by the `replace` defect) never visits it, so a root call does not
populate a size for every folder under the root. -/
theorem claim_C7_unvisited_folder :
    "a/ba/".toList ∈ commonPrefixes buggyStore "a/".toList
    ∧ "a/ba/".toList ∉ visitedSet buggyStore 7 "a/".toList
    ∧ (calcFolderSize buggyStore 7 "a/".toList (fun _ => none)).2 "a/ba/".toList = none :=
  ⟨by decide, by decide, by decide⟩

/-- Claim C7 as amended: after `calculate_folder_size(p, cache)` returns
(with sufficient fuel), the cache maps `p` and every node visited by the
traversal to that node's recursively computed total size — but only the
visited nodes, which the `replace` defect can make a strict subset of the
real folders under `p`. -/
theorem claim_C7_memoizes_visited (store : Store) (fuel : Nat) (p : Key)
    (c : Key → Option Nat) (hg : goodFuel store fuel p) :
    p ∈ visitedSet store fuel p
    ∧ ∀ q ∈ visitedSet store fuel p,
        (calcFolderSize store fuel p c).2 q = some (folderSize store q) := by
  constructor
  · cases fuel with
    | zero => exact absurd hg.1 (by omega)
    | succ fuel => exact List.mem_cons_self _ _
  · exact calc_snd_visited store fuel p c hg

/-- Witness for the amended claim C7 at a concrete store: the call at
`a/` writes the entry of the visited descendant `a/b/`. -/
theorem claim_C7_memoizes_visited_witness :
    "a/".toList ∈ visitedSet sampleStore 6 "a/".toList
    ∧ (calcFolderSize sampleStore 6 "a/".toList (fun _ => none)).2 "a/b/".toList
        = some (folderSize sampleStore "a/b/".toList) :=
  ⟨(claim_C7_memoizes_visited sampleStore 6 "a/".toList (fun _ => none) (by decide)).1,
   (claim_C7_memoizes_visited sampleStore 6 "a/".toList (fun _ => none) (by decide)).2
     "a/b/".toList (by decide)⟩

/-- Claim C8: `human_readable_size` renders `0` as "0 B", `1536` as
"1.50 KB" and `1073741824` as "1.00 GB". -/
theorem claim_C8_rendering_examples :
    human_readable_size 0 = "0 B"
    ∧ human_readable_size 1536 = "1.50 KB"
    ∧ human_readable_size 1073741824 = "1.00 GB" :=
  ⟨by decide, by decide, by decide⟩

set_option maxRecDepth 8192 in
/-- Claim C9, counterexample to the claim as stated: the input `2 ^ 1024`
is at least `1024 ^ 8`, yet `human_readable_size` does not terminate with
a YB rendering there — the first `bytes /= 1024.0` raises
`OverflowError` converting the int to a float, so nothing is rendered at
all. -/
theorem claim_C9_overflow_not_rendered :
    1024 ^ 8 ≤ 2 ^ 1024
    ∧ human_readable_sizeE (2 ^ 1024) = .error .overflow
    ∧ ∀ s : String, human_readable_sizeE (2 ^ 1024) ≠ .ok s := by
  have h2 : human_readable_sizeE (2 ^ 1024) = .error .overflow := rfl
  exact ⟨by decide, h2, fun s h => by rw [h2] at h; cases h⟩

set_option maxRecDepth 8192 in
/-- Claim C9 as amended: the loop's unit index stays at or below 8 (the
last of the nine units) so no out-of-bounds unit access can occur, and
for every input below the float-overflow bound the function returns
normally — in particular every input in `[1024 ^ 8, floatOvfBound)` is
rendered in the terminal unit YB — while every input at or above the
bound raises `OverflowError` in the loop's first division instead of
rendering anything. -/
theorem claim_C9_bounded_rendering (n : Nat) :
    (hrsLoop 9 (n, 0) 0).2 ≤ 8
    ∧ (n < floatOvfBound → human_readable_sizeE n = .ok (human_readable_size n))
    ∧ (floatOvfBound ≤ n → human_readable_sizeE n = .error .overflow)
    ∧ (1024 ^ 8 ≤ n → n < floatOvfBound →
        human_readable_sizeE n = .ok (format2 (n, 8) ++ " " ++ units.getD 8 "")) := by
  have hok : n < floatOvfBound → human_readable_sizeE n = .ok (human_readable_size n) := by
    intro hlt
    by_cases h0 : n = 0
    · subst h0; rfl
    · rw [human_readable_sizeE, if_neg h0,
        if_neg (show ¬ (1024 ≤ n ∧ floatOvfBound ≤ n) from fun h => absurd h.2 (by omega))]
  refine ⟨hrsLoop_snd_le 9 (n, 0) 0 (by omega), hok, fun hge => ?_, fun hq hlt => ?_⟩
  · have h1024 : 1024 ≤ floatOvfBound := by decide
    rw [human_readable_sizeE, if_neg (show ¬ n = 0 by omega), if_pos ⟨by omega, hge⟩]
  · rw [hok hlt]
    have hpos : 0 < 1024 ^ 8 := by positivity
    rw [human_readable_size, if_neg (show ¬ n = 0 by omega)]
    show Except.ok (format2 (hrsLoop 9 (n, 0) 0).1 ++ " " ++ units.getD (hrsLoop 9 (n, 0) 0).2 "")
      = (Except.ok (format2 (n, 8) ++ " " ++ units.getD 8 "") : Except FloatErr String)
    rw [hrsLoop_pow n hq]

set_option maxRecDepth 8192 in
/-- Witness for the amended claim C9 at the smallest YB input (which is
far below the overflow bound) and at an overflowing input. -/
theorem claim_C9_bounded_rendering_witness :
    (hrsLoop 9 (1024 ^ 8, 0) 0).2 ≤ 8
    ∧ human_readable_sizeE (1024 ^ 8)
        = .ok (format2 (1024 ^ 8, 8) ++ " " ++ units.getD 8 "")
    ∧ human_readable_sizeE (2 ^ 1025) = .error .overflow :=
  ⟨(claim_C9_bounded_rendering (1024 ^ 8)).1,
   (claim_C9_bounded_rendering (1024 ^ 8)).2.2.2 (le_refl _) (by decide),
   (claim_C9_bounded_rendering (2 ^ 1025)).2.2.1 (by decide)⟩

/-- Claim C10, counterexample to its final clause as stated: with request
node `aa` and object key `aaa` the node string does reoccur after the
start (at position 1, overlapping the leading occurrence), yet
`replace` removes only the leading occurrence there, so the reported key
equals the suffix after the leading occurrence rather than differing. -/
theorem claim_C10_overlap_equal :
    "aa".toList <+: "aaa".toList
    ∧ (∃ pre suf : List Char, pre ++ "aa".toList ++ suf = "aaa".toList ∧ pre ≠ [])
    ∧ removeAll "aa".toList "aaa".toList = ("aaa".toList).drop ("aa".toList).length :=
  ⟨⟨['a'], by decide⟩, ⟨['a'], [], by decide, by decide⟩, by decide⟩

/-- Claim C10 as amended: listing responses build each file key and folder
name by removing every left-to-right non-overlapping occurrence of the
request node (str.replace semantics), and whenever the (nonempty) node
reoccurs within the remainder after its leading occurrence, the reported
key differs from that remainder. -/
theorem claim_C10_replace_all_semantics (p k : Key) :
    (p ≠ [] → p <+: k → p <:+: k.drop p.length → removeAll p k ≠ k.drop p.length)
    ∧ ∀ (bucket : String) (c : Key → Option Nat) (store : Store),
        ((get_bucket_objects bucket c p (.ok store)).1).map
            (fun r => (r.files.map fun fo => fo.key, r.folders.map fun fo => fo.name))
          = some ((contents store p).map fun o => removeAll p o.key,
              (commonPrefixes store p).map fun f => (removeAll p f).dropLast) := by
  constructor
  · exact fun hp hpre hinf => removeAll_ne_drop p k hp hpre hinf
  · intro bucket c store
    simp [get_bucket_objects, List.map_map]

/-- Witness for the amended claim C10: on key `abab` with request node
`ab`, removing every occurrence gives a key that differs from the
remainder `ab` after the leading occurrence. -/
theorem claim_C10_replace_all_semantics_witness :
    removeAll "ab".toList "abab".toList ≠ ("abab".toList).drop ("ab".toList).length :=
  (claim_C10_replace_all_semantics "ab".toList "abab".toList).1 (by decide)
    ⟨"ab".toList, by decide⟩ ⟨[], [], by decide⟩

/-- Sanity check of the whole embedding on the spec's end-to-end example:
a refresh of the example store produces the cache entries `a/ ↦ 300` and
`a/b/ ↦ 200`, and listing the root with that cache reports folder `a`
with size "300.00 B" and file `c.txt` with size "50.00 B". -/
theorem spec_end_to_end_example :
    (refresh_cache specStore 10 0 ⟨fun _ => none, none⟩).entries "a/".toList = some 300
    ∧ (refresh_cache specStore 10 0 ⟨fun _ => none, none⟩).entries "a/b/".toList = some 200
    ∧ ((get_bucket_objects "bkt" (refresh_cache specStore 10 0 ⟨fun _ => none, none⟩).entries
          [] (.ok specStore)).1).map
        (fun r => (r.folders.map fun fo => (fo.name, fo.size),
          r.files.map fun fo => (fo.key, fo.size)))
      = some ([("a".toList, "300.00 B")], [("c.txt".toList, "50.00 B")]) :=
  ⟨by decide, by decide, by decide⟩
